import Mathlib

/-!
A shallow embedding of `src/advanced-vector/vector.h` (template classes
`RawMemory<T>` and `Vector<T>`).

Memory is modelled at slot granularity: a raw block of capacity `n` is a
list of `n` slots, each `Option T` — `some x` is a live object holding the
value `x`, `none` is an uninitialized (or destroyed) slot.  Each call to a
standard relocation algorithm in the source (`std::uninitialized_copy_n`,
`std::uninitialized_move_n`, `std::destroy_n`, `std::move_backward`,
`std::move`, `std::uninitialized_value_construct_n`) is modelled by one
slot-level helper below that performs the same sequence of per-slot reads
and writes.  On the success path move construction and copy construction
transfer the same value, so both are modelled by `copyRange`; a separate
failure-instrumented `moveRangeF` models `std::uninitialized_move_n` when
the element constructor can fail.

Reading a slot that holds no live object yields no value (`none`); the one
place the source does this — `Vector::Emplace`'s non-reallocating branch
reads `data_[size_]`, an uninitialized slot — is modelled by an explicit
`junk` parameter standing for the indeterminate value produced there.
-/

namespace AdvVec

/-- Read slot `i` of a block: the live value, or `none` when the slot is
uninitialized or out of range. -/
def readSlot {T : Type} (buf : List (Option T)) (i : Nat) : Option T :=
  buf.getD i none

/-- Write slot `i` of a block (placement-new when the written value is
`some x` over a `none` slot, assignment when over a live slot, destructor
call when the written value is `none`). -/
def writeSlot {T : Type} (buf : List (Option T)) (i : Nat) (v : Option T) :
    List (Option T) :=
  buf.set i v

/-- `std::destroy_n(buf + off, n)` / `DestroyN`: destroy slots
`[off, off+n)` one by one. -/
def destroyRange {T : Type} (buf : List (Option T)) (off n : Nat) :
    List (Option T) :=
  match n with
  | 0 => buf
  | m + 1 => destroyRange (writeSlot buf off none) (off + 1) m

/-- `std::uninitialized_value_construct_n(buf + off, n)` with the
default-constructed value `d`: construct slots `[off, off+n)`. -/
def constructRange {T : Type} (buf : List (Option T)) (off n : Nat) (d : T) :
    List (Option T) :=
  match n with
  | 0 => buf
  | m + 1 => constructRange (writeSlot buf off (some d)) (off + 1) m d

/-- `std::uninitialized_copy_n(src + srcOff, n, dst + dstOff)` on the
success path (also `std::uninitialized_move_n` and `std::copy_n`, which
transfer the same values): for `i = 0..n-1`, slot `dstOff+i` of `dst`
receives the value of slot `srcOff+i` of `src`. -/
def copyRange {T : Type} (src : List (Option T)) (srcOff : Nat)
    (dst : List (Option T)) (dstOff n : Nat) : List (Option T) :=
  match n with
  | 0 => dst
  | m + 1 =>
      copyRange src (srcOff + 1)
        (writeSlot dst dstOff (readSlot src srcOff)) (dstOff + 1) m

/-- `std::move(buf + dst + 1, buf + dst + 1 + cnt, buf + dst)` as used by
`Vector::Erase`: shift `cnt` slots left by one, processed front to back. -/
def shiftLeftOne {T : Type} (buf : List (Option T)) (dst cnt : Nat) :
    List (Option T) :=
  match cnt with
  | 0 => buf
  | m + 1 =>
      shiftLeftOne (writeSlot buf dst (readSlot buf (dst + 1))) (dst + 1) m

/-- `std::move_backward(buf + first, buf + first + cnt, buf + first + cnt + 1)`
as used by `Vector::Emplace`: shift `cnt` slots right by one, processed
back to front (the highest target slot is written first). -/
def shiftRightOne {T : Type} (buf : List (Option T)) (first cnt : Nat) :
    List (Option T) :=
  match cnt with
  | 0 => buf
  | m + 1 =>
      shiftRightOne (writeSlot buf (first + m + 1) (readSlot buf (first + m)))
        first m

/-- `RawMemory<T>`: an owning handle to a block of `capacity` element
slots.  `buffer.length` is the capacity; the handle itself never
constructs or destroys elements. -/
structure RawMemory (T : Type) where
  buffer : List (Option T)

/-- `RawMemory::Capacity()`. -/
def RawMemory.capacity {T : Type} (m : RawMemory T) : Nat :=
  m.buffer.length

/-- `RawMemory(size_t capacity)` via `Allocate`: a block of `n`
uninitialized slots (no allocation at all for `n = 0`). -/
def RawMemory.alloc (T : Type) (n : Nat) : RawMemory T :=
  ⟨List.replicate n none⟩

/-- `RawMemory(RawMemory&& other)`: swaps the default-initialized members
(null, 0) with `other`'s; returns (the new handle, what `other` becomes). -/
def RawMemory.moveCtor {T : Type} (other : RawMemory T) :
    RawMemory T × RawMemory T :=
  (⟨other.buffer⟩, ⟨[]⟩)

/-- `RawMemory::operator=(RawMemory&& rhs)`: swaps `buffer_`/`capacity_`
with `rhs`'s; returns (what the target becomes, what `rhs` becomes). -/
def RawMemory.moveAssign {T : Type} (dst rhs : RawMemory T) :
    RawMemory T × RawMemory T :=
  (⟨rhs.buffer⟩, ⟨dst.buffer⟩)

/-- `RawMemory::Swap`. -/
def RawMemory.swap {T : Type} (a b : RawMemory T) :
    RawMemory T × RawMemory T :=
  (⟨b.buffer⟩, ⟨a.buffer⟩)

/-- `Vector<T>`: `data_` owns the storage, `size_` counts the live objects
in slots `[0, size_)`. -/
structure Vector (T : Type) where
  data_ : RawMemory T
  size_ : Nat

/-- The slot list of a vector's storage. -/
def Vector.buf {T : Type} (v : Vector T) : List (Option T) :=
  v.data_.buffer

/-- `Vector::Capacity()`. -/
def Vector.capacity {T : Type} (v : Vector T) : Nat :=
  v.data_.capacity

/-- `Vector()`: null storage, size 0. -/
def Vector.empty (T : Type) : Vector T :=
  ⟨⟨[]⟩, 0⟩

/-- `Vector(const Vector& v)`: allocates exactly `v.size_` slots
(`data_(v.size_)`) and copies the `size_` live elements into them
(`std::uninitialized_copy_n`). -/
def Vector.copyCtor {T : Type} (v : Vector T) : Vector T :=
  ⟨⟨copyRange v.buf 0 (List.replicate v.size_ none) 0 v.size_⟩, v.size_⟩

/-- `Vector(Vector&& other)`: member-init `data_(std::move(other.data_))`
(RawMemory move construction empties `other.data_`), then
`std::swap(other.size_, size_)` with `size_ = 0`.  Returns
(the new vector, what `other` becomes). -/
def Vector.moveCtor {T : Type} (other : Vector T) : Vector T × Vector T :=
  (⟨⟨other.buf⟩, other.size_⟩, ⟨⟨[]⟩, 0⟩)

/-- `Vector::Swap`: swaps storage handles and sizes.  Returns the pair of
resulting states. -/
def Vector.swap {T : Type} (a b : Vector T) : Vector T × Vector T :=
  (⟨⟨b.buf⟩, b.size_⟩, ⟨⟨a.buf⟩, a.size_⟩)

/-- `Vector::Reserve(new_capacity)`: no-op when
`new_capacity <= data_.Capacity()`; otherwise allocates `new_capacity`
fresh slots, relocates the `size_` live elements into them
(`std::uninitialized_move_n` or `std::uninitialized_copy_n` — same values
on the success path), destroys the old elements and swaps storages. -/
def Vector.reserve {T : Type} (v : Vector T) (new_capacity : Nat) :
    Vector T :=
  if new_capacity ≤ v.capacity then v
  else
    ⟨⟨copyRange v.buf 0 (List.replicate new_capacity none) 0 v.size_⟩,
      v.size_⟩

/-- `Vector::Resize(new_size)`: when growing, `Reserve(new_size)` then
value-construct slots `[size_, new_size)` (with default value `d`); when
shrinking, destroy slots `[new_size, size_)`; set `size_ = new_size`. -/
def Vector.resize {T : Type} (v : Vector T) (new_size : Nat) (d : T) :
    Vector T :=
  if v.size_ < new_size then
    let r := v.reserve new_size
    ⟨⟨constructRange r.buf v.size_ (new_size - v.size_) d⟩, new_size⟩
  else
    ⟨⟨destroyRange v.buf new_size (v.size_ - new_size)⟩, new_size⟩

/-- `Vector::PopBack()`: returns unchanged when `size_ == 0`; otherwise
destroys the last live element and decrements `size_`. -/
def Vector.popBack {T : Type} (v : Vector T) : Vector T :=
  if v.size_ = 0 then v
  else ⟨⟨writeSlot v.buf (v.size_ - 1) none⟩, v.size_ - 1⟩

/-- `Vector::EmplaceBack(args...)` success path (also `PushBack`, which
forwards to it).  When full: allocate `size_ == 0 ? 1 : size_ * 2` slots,
construct the new element at slot `size_` of the new block, relocate the
old elements into slots `[0, size_)`, destroy the old elements, increment
`size_` and adopt the new block.  Otherwise construct in place at slot
`size_` and increment `size_`. -/
def Vector.emplaceBack {T : Type} (v : Vector T) (x : T) : Vector T :=
  if v.size_ = v.capacity then
    let tmp := writeSlot
      (List.replicate (if v.size_ = 0 then 1 else v.size_ * 2) none)
      v.size_ (some x)
    ⟨⟨copyRange v.buf 0 tmp 0 v.size_⟩, v.size_ + 1⟩
  else
    ⟨⟨writeSlot v.buf v.size_ (some x)⟩, v.size_ + 1⟩

/-- The value `EmplaceBack` returns a reference to: `data_[size_ - 1]` of
the resulting state. -/
def Vector.backRef {T : Type} (v : Vector T) : Option T :=
  readSlot v.buf (v.size_ - 1)

/-- `Vector::Emplace(pos, args...)` success path (also `Insert`, which
forwards to it); `index = pos - begin()`.

When full: allocate `size_ == 0 ? 1 : size_ * 2` slots, construct the new
element at slot `index` of the new block, relocate old slots `[0, index)`
to `[0, index)` and old slots `[index, size_)` to `[index+1, size_+1)`,
destroy the old elements, increment `size_`, adopt the new block.

Otherwise, when `size_ != 0`: materialize the new value
(`T tmp(args...)`), then `new (end()) T(std::move(data_[size_]))` —
NOTE: the source reads `data_[size_]`, the uninitialized slot one past the
last live element, so the constructed object holds the indeterminate value
`junk` — then `std::move_backward(begin() + index, end() - 1, end())`
shifts slots `[index, size_-1)` right by one, then `data_[index] = tmp`;
increment `size_`.  When `size_ == 0`: construct in place at `index`.

NOTE: when `index = size_` with `size_ != 0` (insertion at `end()`
without reallocation) the source hands `std::move_backward` the invalid
range `[end(), end() - 1)` — undefined behavior in C++.  The model
resolves it as the empty shift (the count `size_ - 1 - index` is 0 in
natural subtraction), the benign reading under which the call behaves as
an append; no claim's result rests on this resolution. -/
def Vector.emplace {T : Type} (v : Vector T) (index : Nat) (x junk : T) :
    Vector T :=
  if v.size_ = v.capacity then
    let tmp := writeSlot
      (List.replicate (if v.size_ = 0 then 1 else v.size_ * 2) none)
      index (some x)
    let tmp := copyRange v.buf 0 tmp 0 index
    let tmp := copyRange v.buf index tmp (index + 1) (v.size_ - index)
    ⟨⟨tmp⟩, v.size_ + 1⟩
  else
    if v.size_ ≠ 0 then
      let b := writeSlot v.buf v.size_ (some junk)
      let b := shiftRightOne b index (v.size_ - 1 - index)
      let b := writeSlot b index (some x)
      ⟨⟨b⟩, v.size_ + 1⟩
    else
      ⟨⟨writeSlot v.buf index (some x)⟩, 1⟩

/-- `Vector::Erase(pos)`; `index = pos - begin()`:
`std::move(begin() + index + 1, end(), begin() + index)` shifts the tail
left by one, then the last live slot is destroyed and `size_` decremented. -/
def Vector.erase {T : Type} (v : Vector T) (index : Nat) : Vector T :=
  let b := shiftLeftOne v.buf index (v.size_ - (index + 1))
  ⟨⟨writeSlot b (v.size_ - 1) none⟩, v.size_ - 1⟩

/-- `Vector::operator=(const Vector& rhs)` (the `this != &rhs` case).
When `rhs.size_ > data_.Capacity()`: build a copy of `rhs` and swap it in.
When `rhs.size_ < size_`: `std::copy_n` the first `rhs.size_` elements over
the existing ones, destroy the excess `[rhs.size_, size_)`.  Otherwise:
`std::copy_n` over the first `size_` elements, then
`std::uninitialized_copy_n` the remaining `[size_, rhs.size_)` into the
free slots. -/
def Vector.copyAssign {T : Type} (dst rhs : Vector T) : Vector T :=
  if dst.capacity < rhs.size_ then
    rhs.copyCtor
  else if rhs.size_ < dst.size_ then
    let b := copyRange rhs.buf 0 dst.buf 0 rhs.size_
    ⟨⟨destroyRange b rhs.size_ (dst.size_ - rhs.size_)⟩, rhs.size_⟩
  else
    let b := copyRange rhs.buf 0 dst.buf 0 dst.size_
    let b := copyRange rhs.buf dst.size_ b dst.size_ (rhs.size_ - dst.size_)
    ⟨⟨b⟩, rhs.size_⟩

/-- `Vector::operator=(Vector&& rhs)` (the `this != &rhs` case).  When
`rhs.size_ > data_.Capacity()`: `Reserve(rhs.size_)` then `Swap(rhs)`;
otherwise just `Swap(rhs)`.  Returns (what the target becomes, what `rhs`
becomes). -/
def Vector.moveAssign {T : Type} (dst rhs : Vector T) :
    Vector T × Vector T :=
  if dst.capacity < rhs.size_ then
    let d := dst.reserve rhs.size_
    (⟨⟨rhs.buf⟩, rhs.size_⟩, ⟨⟨d.buf⟩, d.size_⟩)
  else
    (⟨⟨rhs.buf⟩, rhs.size_⟩, ⟨⟨dst.buf⟩, dst.size_⟩)

/-! ### Abstraction: a block holding the live values `xs` followed by
uninitialized slots -/

/-- The slots of `xs.length` live objects holding the values of `xs`. -/
def liveSlots {T : Type} (xs : List T) : List (Option T) :=
  xs.map some

/-- `k` uninitialized slots. -/
def freeSlots (T : Type) (k : Nat) : List (Option T) :=
  List.replicate k none

theorem length_liveSlots {T : Type} (xs : List T) :
    (liveSlots xs).length = xs.length := by
  simp [liveSlots]

theorem length_freeSlots (T : Type) (k : Nat) :
    (freeSlots T k).length = k := by
  simp [freeSlots]

theorem liveSlots_append {T : Type} (xs ys : List T) :
    liveSlots (xs ++ ys) = liveSlots xs ++ liveSlots ys := by
  simp [liveSlots]

theorem liveSlots_take {T : Type} (xs : List T) (n : Nat) :
    liveSlots (xs.take n) = (liveSlots xs).take n := by
  simp [liveSlots, List.map_take]

theorem liveSlots_drop {T : Type} (xs : List T) (n : Nat) :
    liveSlots (xs.drop n) = (liveSlots xs).drop n := by
  simp [liveSlots, List.map_drop]

theorem freeSlots_succ (T : Type) (k : Nat) :
    freeSlots T (k + 1) = none :: freeSlots T k := by
  simp [freeSlots, List.replicate_succ]

/-! ### Pointwise facts about `readSlot` and `List.set` -/

theorem readSlot_eq_get {T : Type} (buf : List (Option T)) (i : Nat)
    (h : i < buf.length) : readSlot buf i = buf.get ⟨i, h⟩ := by
  simp [readSlot, List.getD_eq_getElem?_getD, List.getElem?_eq_getElem h]

theorem readSlot_live {T : Type} (xs : List T) (p i : Nat)
    (h : i < xs.length) :
    readSlot (liveSlots xs ++ freeSlots T p) i = some (xs.get ⟨i, h⟩) := by
  have hl : i < (liveSlots xs).length := by rw [length_liveSlots]; exact h
  rw [readSlot, List.getD_eq_getElem?_getD, List.getElem?_append_left hl]
  simp [liveSlots, List.getElem?_map, List.getElem?_eq_getElem h]

theorem set_take_succ {α : Type} (l : List α) (d : Nat) (a : α)
    (h : d < l.length) : (l.set d a).take (d + 1) = l.take d ++ [a] := by
  have h1 : (l.take d).length = d := by
    rw [List.length_take]; exact Nat.min_eq_left (Nat.le_of_lt h)
  rw [List.set_eq_take_cons_drop a h]
  rw [show d + 1 = (l.take d).length + 1 from by rw [h1]]
  rw [List.take_append]
  simp

theorem set_take_le {α : Type} (l : List α) (d n : Nat) (a : α)
    (h : n ≤ d) : (l.set d a).take n = l.take n := by
  rw [List.set_take]
  exact List.set_eq_of_length_le
    (le_trans (by rw [List.length_take]; exact Nat.min_le_left _ _) h)

theorem set_drop_ge {α : Type} (l : List α) (d n : Nat) (a : α)
    (h : d < n) : (l.set d a).drop n = l.drop n := by
  rw [List.drop_set, if_pos h]

theorem set_drop_self {α : Type} (l : List α) (n : Nat) (a : α)
    (h : n < l.length) : (l.set n a).drop n = a :: l.drop (n + 1) := by
  rw [List.set_eq_take_cons_drop a h]
  exact List.drop_left' (by rw [List.length_take]; exact Nat.min_eq_left (Nat.le_of_lt h))

/-! ### Characterizations of the slot-level helpers -/

theorem destroyRange_eq {T : Type} :
    ∀ (n off : Nat) (buf : List (Option T)), off + n ≤ buf.length →
      destroyRange buf off n =
        buf.take off ++ freeSlots T n ++ buf.drop (off + n) := by
  intro n
  induction n with
  | zero =>
      intro off buf h
      simp [destroyRange, freeSlots, List.take_append_drop]
  | succ m ih =>
      intro off buf h
      have hofflt : off < buf.length := by omega
      rw [destroyRange, writeSlot]
      rw [ih (off + 1) (buf.set off none) (by simp; omega)]
      rw [set_take_succ _ _ _ hofflt, set_drop_ge _ _ _ _ (by omega)]
      rw [freeSlots_succ]
      rw [show off + 1 + m = off + (m + 1) from by omega]
      simp

theorem constructRange_eq {T : Type} (d : T) :
    ∀ (n off : Nat) (buf : List (Option T)), off + n ≤ buf.length →
      constructRange buf off n d =
        buf.take off ++ List.replicate n (some d) ++ buf.drop (off + n) := by
  intro n
  induction n with
  | zero =>
      intro off buf h
      simp [constructRange, List.take_append_drop]
  | succ m ih =>
      intro off buf h
      have hofflt : off < buf.length := by omega
      rw [constructRange, writeSlot]
      rw [ih (off + 1) (buf.set off (some d)) (by simp; omega)]
      rw [set_take_succ _ _ _ hofflt, set_drop_ge _ _ _ _ (by omega)]
      rw [List.replicate_succ]
      rw [show off + 1 + m = off + (m + 1) from by omega]
      simp

theorem copyRange_live {T : Type} (xs : List T) (p : Nat) :
    ∀ (n s d : Nat) (dst : List (Option T)), s + n ≤ xs.length →
      d + n ≤ dst.length →
      copyRange (liveSlots xs ++ freeSlots T p) s dst d n =
        dst.take d ++ liveSlots ((xs.drop s).take n) ++ dst.drop (d + n) := by
  intro n
  induction n with
  | zero =>
      intro s d dst hs hd
      simp [copyRange, liveSlots, List.take_append_drop]
  | succ m ih =>
      intro s d dst hs hd
      have hslt : s < xs.length := by omega
      have hdlt : d < dst.length := by omega
      rw [copyRange, readSlot_live xs p s hslt, writeSlot]
      rw [ih (s + 1) (d + 1) _ (by omega) (by simp; omega)]
      rw [set_take_succ _ _ _ hdlt, set_drop_ge _ _ _ _ (by omega)]
      rw [List.drop_eq_getElem_cons hslt]
      rw [show (xs[s] :: xs.drop (s + 1)).take (m + 1) =
            xs[s] :: (xs.drop (s + 1)).take m from rfl]
      rw [show liveSlots (xs[s] :: (xs.drop (s + 1)).take m) =
            some xs[s] :: liveSlots ((xs.drop (s + 1)).take m) from rfl]
      rw [show d + 1 + m = d + (m + 1) from by omega]
      simp [List.get_eq_getElem]

theorem shiftLeftOne_eq {T : Type} :
    ∀ (cnt dst : Nat) (buf : List (Option T)), dst + cnt < buf.length →
      shiftLeftOne buf dst cnt =
        buf.take dst ++ (buf.drop (dst + 1)).take cnt ++
          buf.drop (dst + cnt) := by
  intro cnt
  induction cnt with
  | zero =>
      intro dst buf h
      simp [shiftLeftOne, List.take_append_drop]
  | succ m ih =>
      intro dst buf h
      have h1 : dst + 1 < buf.length := by omega
      have hdlt : dst < buf.length := by omega
      rw [shiftLeftOne, writeSlot, readSlot_eq_get buf (dst + 1) h1]
      rw [ih (dst + 1) _ (by simp; omega)]
      rw [set_take_succ _ _ _ hdlt]
      rw [set_drop_ge _ _ _ _ (by omega), set_drop_ge _ _ _ _ (by omega)]
      rw [List.drop_eq_getElem_cons h1]
      rw [show (buf[dst + 1] :: buf.drop (dst + 1 + 1)).take (m + 1) =
            buf[dst + 1] :: (buf.drop (dst + 1 + 1)).take m from rfl]
      rw [show dst + 1 + m = dst + (m + 1) from by omega]
      simp [List.get_eq_getElem]

theorem shiftRightOne_eq {T : Type} (first : Nat) :
    ∀ (cnt : Nat) (buf : List (Option T)), first + cnt + 1 ≤ buf.length →
      shiftRightOne buf first cnt =
        buf.take (first + 1) ++ (buf.drop first).take cnt ++
          buf.drop (first + cnt + 1) := by
  intro cnt
  induction cnt with
  | zero =>
      intro buf h
      simp [shiftRightOne, List.take_append_drop]
  | succ m ih =>
      intro buf h
      have hm : first + m < buf.length := by omega
      have hm1 : first + m + 1 < buf.length := by omega
      rw [shiftRightOne, writeSlot, readSlot_eq_get buf (first + m) hm]
      rw [ih _ (by simp; omega)]
      rw [set_take_le _ _ _ _ (by omega)]
      have hdroptake :
          ((buf.set (first + m + 1) (buf.get ⟨first + m, hm⟩)).drop first).take m
            = (buf.drop first).take m := by
        rw [show first + m + 1 = first + (m + 1) from by omega, ← List.set_drop]
        exact set_take_le _ _ _ _ (by omega)
      rw [hdroptake]
      rw [set_drop_self _ _ _ hm1]
      have hmid : (buf.drop first).take (m + 1) =
          (buf.drop first).take m ++ [buf.get ⟨first + m, hm⟩] := by
        have hmlt : m < (buf.drop first).length := by simp; omega
        rw [List.take_succ, List.getElem?_eq_getElem hmlt]
        simp [List.getElem_drop, List.get_eq_getElem]
      rw [hmid]
      rw [show first + (m + 1) + 1 = first + m + 1 + 1 from by omega]
      simp [List.get_eq_getElem]

/-! ### The representation predicate -/

/-- `IsRep v xs`: the container `v` is a well-formed vector holding
exactly the element sequence `xs` — `size_` counts `xs`, slots
`[0, size_)` are live and hold `xs` in order, slots `[size_, capacity)`
are uninitialized. -/
def IsRep {T : Type} (v : Vector T) (xs : List T) : Prop :=
  v.size_ = xs.length ∧ xs.length ≤ v.capacity ∧
    v.buf = liveSlots xs ++ freeSlots T (v.capacity - xs.length)

theorem length_buf {T : Type} (v : Vector T) : v.buf.length = v.capacity :=
  rfl

theorem buf_mk {T : Type} (l : List (Option T)) (n : Nat) :
    (Vector.mk ⟨l⟩ n).buf = l := rfl

theorem size_mk {T : Type} (l : List (Option T)) (n : Nat) :
    (Vector.mk ⟨l⟩ n).size_ = n := rfl

theorem capacity_mk {T : Type} (l : List (Option T)) (n : Nat) :
    (Vector.mk ⟨l⟩ n).capacity = l.length := rfl

theorem vector_eta {T : Type} (v : Vector T) :
    Vector.mk ⟨v.buf⟩ v.size_ = v := rfl

/-! ### Shape lemmas for buffers of the form `liveSlots xs ++ freeSlots k` -/

theorem take_liveFree {T : Type} (xs : List T) (k i : Nat)
    (h : i ≤ xs.length) :
    (liveSlots xs ++ freeSlots T k).take i = liveSlots (xs.take i) := by
  rw [List.take_append_of_le_length (by rw [length_liveSlots]; exact h),
    ← liveSlots_take]

theorem drop_liveFree {T : Type} (xs : List T) (k i : Nat)
    (h : i ≤ xs.length) :
    (liveSlots xs ++ freeSlots T k).drop i =
      liveSlots (xs.drop i) ++ freeSlots T k := by
  rw [List.drop_append_of_le_length (by rw [length_liveSlots]; exact h),
    ← liveSlots_drop]

theorem drop_liveFree_all {T : Type} (xs : List T) (k j : Nat) :
    (liveSlots xs ++ freeSlots T k).drop (xs.length + j) =
      freeSlots T (k - j) := by
  have h := @List.drop_append _ (liveSlots xs) (freeSlots T k) j
  rw [length_liveSlots] at h
  rw [h]
  simp [freeSlots, List.drop_replicate]

theorem set_liveFree_at_size {T : Type} (xs : List T) (k : Nat)
    (a : Option T) (hk : 0 < k) :
    (liveSlots xs ++ freeSlots T k).set xs.length a =
      liveSlots xs ++ a :: freeSlots T (k - 1) := by
  rw [List.set_append, if_neg (by rw [length_liveSlots]; omega)]
  rw [length_liveSlots, Nat.sub_self]
  obtain ⟨m, rfl⟩ : ∃ m, k = m + 1 := ⟨k - 1, by omega⟩
  rw [freeSlots_succ]
  simp

theorem set_liveFree_in_live {T : Type} (xs : List T) (k i : Nat)
    (a : Option T) (h : i < xs.length) :
    (liveSlots xs ++ freeSlots T k).set i a =
      (liveSlots xs).set i a ++ freeSlots T k := by
  rw [List.set_append, if_pos (by rw [length_liveSlots]; exact h)]

/-! ### Representation lemmas for each operation -/

theorem isRep_mk {T : Type} (ys : List T) (k : Nat) :
    IsRep (Vector.mk ⟨liveSlots ys ++ freeSlots T k⟩ ys.length) ys := by
  have hlen : (liveSlots ys ++ freeSlots T k).length = ys.length + k := by
    simp [length_liveSlots, length_freeSlots]
  refine ⟨rfl, ?_, ?_⟩
  · rw [capacity_mk, hlen]; omega
  · rw [buf_mk, capacity_mk, hlen]
    have h2 : ys.length + k - ys.length = k := by omega
    rw [h2]

theorem isRep_of_eq {T : Type} {v : Vector T} {ys : List T}
    (l : List (Option T)) (k n : Nat) (hv : v = Vector.mk ⟨l⟩ n)
    (hl : l = liveSlots ys ++ freeSlots T k) (hn : n = ys.length) :
    IsRep v ys := by
  subst hv; subst hl; subst hn
  exact isRep_mk ys k

theorem rep_empty (T : Type) : IsRep (Vector.empty T) [] := by
  refine isRep_of_eq [] 0 0 rfl ?_ rfl
  simp [liveSlots, freeSlots]

theorem rep_copyCtor {T : Type} {v : Vector T} {xs : List T}
    (h : IsRep v xs) :
    IsRep v.copyCtor xs ∧ v.copyCtor.capacity = xs.length := by
  obtain ⟨hsz, hle, hbuf⟩ := h
  have hb : copyRange v.buf 0 (List.replicate v.size_ none) 0 v.size_ =
      liveSlots xs ++ freeSlots T 0 := by
    rw [hbuf, hsz]
    rw [copyRange_live xs _ xs.length 0 0 _ (by omega) (by simp)]
    simp [freeSlots, List.drop_replicate, List.take_of_length_le]
  constructor
  · exact isRep_of_eq _ 0 _ rfl hb hsz
  · show (Vector.mk ⟨copyRange v.buf 0 (List.replicate v.size_ none) 0
      v.size_⟩ v.size_).capacity = xs.length
    rw [capacity_mk, hb]
    simp [length_liveSlots, length_freeSlots]

theorem reserve_of_le {T : Type} {v : Vector T} {n : Nat}
    (h : n ≤ v.capacity) : v.reserve n = v := by
  rw [Vector.reserve, if_pos h]

theorem rep_reserve {T : Type} {v : Vector T} {xs : List T} (n : Nat)
    (h : IsRep v xs) :
    IsRep (v.reserve n) xs ∧
      (v.reserve n).capacity = max v.capacity n ∧
      (v.reserve n).size_ = v.size_ := by
  obtain ⟨hsz, hle, hbuf⟩ := h
  by_cases hn : n ≤ v.capacity
  · rw [reserve_of_le hn]
    exact ⟨⟨hsz, hle, hbuf⟩, by omega, rfl⟩
  · have heq : v.reserve n = Vector.mk
        ⟨copyRange v.buf 0 (List.replicate n none) 0 v.size_⟩ v.size_ := by
      rw [Vector.reserve, if_neg hn]
    have hb : copyRange v.buf 0 (List.replicate n none) 0 v.size_ =
        liveSlots xs ++ freeSlots T (n - xs.length) := by
      rw [hbuf, hsz]
      rw [copyRange_live xs _ xs.length 0 0 _ (by omega) (by simp; omega)]
      simp [freeSlots, List.drop_replicate, List.take_of_length_le]
    refine ⟨isRep_of_eq _ (n - xs.length) _ heq hb hsz, ?_, ?_⟩
    · rw [heq, capacity_mk, hb]
      simp [length_liveSlots, length_freeSlots]
      omega
    · rw [heq]

theorem rep_emplaceBack {T : Type} {v : Vector T} {xs : List T} (x : T)
    (h : IsRep v xs) : IsRep (v.emplaceBack x) (xs ++ [x]) := by
  obtain ⟨hsz, hle, hbuf⟩ := h
  by_cases hfull : v.size_ = v.capacity
  · have hcap : v.capacity = xs.length := by omega
    have heq : v.emplaceBack x = Vector.mk
        ⟨copyRange v.buf 0
          (writeSlot (List.replicate (if v.size_ = 0 then 1 else v.size_ * 2)
            none) v.size_ (some x)) 0 v.size_⟩ (v.size_ + 1) := by
      rw [Vector.emplaceBack, if_pos hfull]
    set newCap := if v.size_ = 0 then 1 else v.size_ * 2 with hnc
    have hlt : xs.length < newCap := by
      rw [hnc, hsz]
      by_cases h0 : xs.length = 0
      · simp [h0]
      · simp [h0]; omega
    have htmp : writeSlot (List.replicate newCap none) v.size_ (some x) =
        freeSlots T xs.length ++
          some x :: freeSlots T (newCap - (xs.length + 1)) := by
      rw [writeSlot, hsz]
      rw [List.set_eq_take_cons_drop _ (by simp; omega)]
      rw [List.take_replicate, List.drop_replicate,
        Nat.min_eq_left (by omega : xs.length ≤ newCap)]
      rfl
    have hb : copyRange v.buf 0
        (writeSlot (List.replicate newCap none) v.size_ (some x)) 0 v.size_ =
        liveSlots (xs ++ [x]) ++ freeSlots T (newCap - (xs.length + 1)) := by
      rw [htmp, hbuf, hsz]
      rw [copyRange_live xs _ xs.length 0 0 _ (by omega)
        (by simp [length_freeSlots])]
      rw [List.drop_left' (by simp [length_freeSlots])]
      rw [liveSlots_append]
      simp [liveSlots, List.take_of_length_le]
    exact isRep_of_eq _ (newCap - (xs.length + 1)) _ heq hb
      (by simp [hsz])
  · have hroom : xs.length < v.capacity := by omega
    have heq : v.emplaceBack x = Vector.mk
        ⟨writeSlot v.buf v.size_ (some x)⟩ (v.size_ + 1) := by
      rw [Vector.emplaceBack, if_neg hfull]
    have hb : writeSlot v.buf v.size_ (some x) =
        liveSlots (xs ++ [x]) ++ freeSlots T (v.capacity - xs.length - 1) := by
      rw [writeSlot, hbuf, hsz]
      rw [set_liveFree_at_size xs _ (some x) (by omega)]
      rw [liveSlots_append]
      simp [liveSlots]
    exact isRep_of_eq _ (v.capacity - xs.length - 1) _ heq hb
      (by simp [hsz])

theorem rep_popBack {T : Type} {v : Vector T} {xs : List T}
    (h : IsRep v xs) :
    IsRep v.popBack xs.dropLast ∧ v.popBack.capacity = v.capacity := by
  obtain ⟨hsz, hle, hbuf⟩ := h
  by_cases h0 : v.size_ = 0
  · have hnil : xs = [] := by
      cases xs with
      | nil => rfl
      | cons a l => rw [hsz] at h0; simp at h0
    subst hnil
    rw [Vector.popBack, if_pos h0]
    exact ⟨⟨hsz, hle, hbuf⟩, rfl⟩
  · have hne : xs ≠ [] := by
      intro hx; rw [hx] at hsz; simp at hsz; exact h0 hsz
    have h1len : 1 ≤ xs.length := by
      cases xs with
      | nil => exact absurd rfl hne
      | cons a l => simp
    have heq : v.popBack = Vector.mk
        ⟨writeSlot v.buf (v.size_ - 1) none⟩ (v.size_ - 1) := by
      rw [Vector.popBack, if_neg h0]
    have hsplit : liveSlots xs =
        liveSlots xs.dropLast ++ [some (xs.getLast hne)] := by
      conv_lhs => rw [← List.dropLast_append_getLast hne]
      rw [liveSlots_append]
      rfl
    have hlen1 : xs.dropLast.length = xs.length - 1 := by simp
    have hb : writeSlot v.buf (v.size_ - 1) none =
        liveSlots xs.dropLast ++
          freeSlots T (v.capacity - (xs.length - 1)) := by
      rw [writeSlot, hbuf, hsz, hsplit, List.append_assoc]
      rw [List.set_append, if_neg (by rw [length_liveSlots, hlen1]; omega)]
      rw [length_liveSlots, hlen1, Nat.sub_self]
      have hfs : (([some (xs.getLast hne)] : List (Option T)) ++
          freeSlots T (v.capacity - xs.length)).set 0 none =
          freeSlots T (v.capacity - (xs.length - 1)) := by
        have hk : v.capacity - (xs.length - 1) =
            (v.capacity - xs.length) + 1 := by omega
        rw [hk, freeSlots_succ]
        rfl
      rw [hfs]
    refine ⟨isRep_of_eq _ (v.capacity - (xs.length - 1)) _ heq hb
      (by rw [hsz, hlen1]), ?_⟩
    rw [heq, capacity_mk, hb]
    simp [length_liveSlots, length_freeSlots, hlen1]
    omega

theorem freeSlots_append (T : Type) (a b : Nat) :
    freeSlots T a ++ freeSlots T b = freeSlots T (a + b) :=
  (List.replicate_add a b none).symm

theorem rep_resize {T : Type} {v : Vector T} {xs : List T} (n : Nat) (d : T)
    (h : IsRep v xs) :
    IsRep (v.resize n d)
      (if v.size_ < n then xs ++ List.replicate (n - xs.length) d
       else xs.take n) ∧
      (v.resize n d).size_ = n := by
  obtain ⟨hsz, hle, hbuf⟩ := h
  by_cases hgt : v.size_ < n
  · obtain ⟨hr, hrcap, hrsz⟩ := rep_reserve n ⟨hsz, hle, hbuf⟩
    obtain ⟨hrs, hrle, hrbuf⟩ := hr
    have hncap : n ≤ (v.reserve n).capacity := by omega
    have heq : v.resize n d = Vector.mk
        ⟨constructRange (v.reserve n).buf v.size_ (n - v.size_) d⟩ n := by
      rw [Vector.resize, if_pos hgt]
    have hb : constructRange (v.reserve n).buf v.size_ (n - v.size_) d =
        liveSlots (xs ++ List.replicate (n - xs.length) d) ++
          freeSlots T ((v.reserve n).capacity - n) := by
      rw [hsz, hrbuf]
      rw [constructRange_eq d (n - xs.length) xs.length _
        (by simp [length_liveSlots, length_freeSlots]; omega)]
      rw [take_liveFree _ _ _ (le_refl _), List.take_length]
      rw [drop_liveFree_all]
      rw [liveSlots_append]
      have h1 : (v.reserve n).capacity - xs.length - (n - xs.length) =
          (v.reserve n).capacity - n := by omega
      rw [h1]
      have h2 : (List.replicate (n - xs.length) (some d) : List (Option T)) =
          liveSlots (List.replicate (n - xs.length) d) := by
        simp [liveSlots, List.map_replicate]
      rw [h2, List.append_assoc]
    rw [if_pos hgt]
    refine ⟨isRep_of_eq _ ((v.reserve n).capacity - n) _ heq hb ?_, ?_⟩
    · simp; omega
    · rw [heq]
  · have hn : n ≤ xs.length := by omega
    have heq : v.resize n d = Vector.mk
        ⟨destroyRange v.buf n (v.size_ - n)⟩ n := by
      rw [Vector.resize, if_neg hgt]
    have hb : destroyRange v.buf n (v.size_ - n) =
        liveSlots (xs.take n) ++ freeSlots T (v.capacity - n) := by
      rw [hbuf, hsz]
      rw [destroyRange_eq (xs.length - n) n _
        (by simp [length_liveSlots, length_freeSlots]; omega)]
      rw [take_liveFree _ _ _ hn]
      rw [show n + (xs.length - n) = xs.length + 0 from by omega]
      rw [drop_liveFree_all]
      rw [List.append_assoc, freeSlots_append]
      have h1 : xs.length - n + (v.capacity - xs.length - 0) =
          v.capacity - n := by omega
      rw [h1]
    rw [if_neg hgt]
    refine ⟨isRep_of_eq _ (v.capacity - n) _ heq hb ?_, ?_⟩
    · rw [List.length_take_of_le hn]
    · rw [heq]

theorem rep_erase {T : Type} {v : Vector T} {xs : List T} {i : Nat}
    (hi : i < xs.length) (h : IsRep v xs) :
    IsRep (v.erase i) (xs.eraseIdx i) ∧
      (v.erase i).capacity = v.capacity := by
  obtain ⟨hsz, hle, hbuf⟩ := h
  have h1len : 1 ≤ xs.length := by omega
  have heq : v.erase i = Vector.mk
      ⟨writeSlot (shiftLeftOne v.buf i (v.size_ - (i + 1)))
        (v.size_ - 1) none⟩ (v.size_ - 1) := rfl
  have hlast : xs.length - 1 < xs.length := by omega
  have hdrop1 : xs.drop (xs.length - 1) = [xs.get ⟨xs.length - 1, hlast⟩] := by
    rw [List.drop_eq_getElem_cons hlast]
    rw [show xs.length - 1 + 1 = xs.length from by omega, List.drop_length]
    rfl
  have hshift : shiftLeftOne v.buf i (v.size_ - (i + 1)) =
      (liveSlots (xs.take i) ++ liveSlots (xs.drop (i + 1))) ++
        some (xs.get ⟨xs.length - 1, hlast⟩) ::
          freeSlots T (v.capacity - xs.length) := by
    rw [hbuf, hsz]
    rw [shiftLeftOne_eq (xs.length - (i + 1)) i _
      (by simp [length_liveSlots, length_freeSlots]; omega)]
    rw [take_liveFree _ _ _ (by omega)]
    rw [drop_liveFree _ _ _ (by omega)]
    rw [List.take_left' (by simp [length_liveSlots])]
    rw [show i + (xs.length - (i + 1)) = xs.length - 1 from by omega]
    rw [drop_liveFree _ _ _ (by omega)]
    rw [hdrop1]
    rw [show liveSlots [xs.get ⟨xs.length - 1, hlast⟩] =
      [some (xs.get ⟨xs.length - 1, hlast⟩)] from rfl]
    simp [List.append_assoc]
  have hb : writeSlot (shiftLeftOne v.buf i (v.size_ - (i + 1)))
      (v.size_ - 1) none =
      liveSlots (xs.eraseIdx i) ++ freeSlots T (v.capacity - (xs.length - 1)) := by
    rw [writeSlot, hshift, hsz]
    have hAlen : (liveSlots (xs.take i) ++
        liveSlots (xs.drop (i + 1))).length = xs.length - 1 := by
      simp [length_liveSlots]
      omega
    rw [List.set_append, if_neg (by rw [hAlen]; omega)]
    rw [hAlen, Nat.sub_self, List.set_cons_zero]
    rw [← liveSlots_append, ← List.eraseIdx_eq_take_drop_succ]
    have hk : v.capacity - (xs.length - 1) =
        (v.capacity - xs.length) + 1 := by omega
    rw [hk, freeSlots_succ]
  refine ⟨isRep_of_eq _ (v.capacity - (xs.length - 1)) _ heq hb ?_, ?_⟩
  · rw [hsz, List.length_eraseIdx, if_pos hi]
  · rw [heq, capacity_mk, hb]
    simp [length_liveSlots, length_freeSlots, List.length_eraseIdx, hi]
    omega

theorem rep_emplace_grow {T : Type} {v : Vector T} {xs : List T}
    {i : Nat} (x junk : T) (hfull : v.size_ = v.capacity)
    (hidx : i ≤ xs.length) (h : IsRep v xs) :
    IsRep (v.emplace i x junk) (xs.take i ++ x :: xs.drop i) := by
  obtain ⟨hsz, hle, hbuf⟩ := h
  have heq : v.emplace i x junk = Vector.mk
      ⟨copyRange v.buf i
        (copyRange v.buf 0
          (writeSlot (List.replicate (if v.size_ = 0 then 1 else v.size_ * 2)
            none) i (some x)) 0 i)
        (i + 1) (v.size_ - i)⟩ (v.size_ + 1) := by
    rw [Vector.emplace, if_pos hfull]
  set newCap := if v.size_ = 0 then 1 else v.size_ * 2 with hnc
  have hlt2 : xs.length + 1 ≤ newCap := by
    rw [hnc, hsz]
    by_cases h0 : xs.length = 0
    · simp [h0]
    · simp [h0]; omega
  have htmp : writeSlot (List.replicate newCap none) i (some x) =
      freeSlots T i ++ some x :: freeSlots T (newCap - (i + 1)) := by
    rw [writeSlot]
    rw [List.set_eq_take_cons_drop _ (by simp; omega)]
    rw [List.take_replicate, List.drop_replicate,
      Nat.min_eq_left (by omega : i ≤ newCap)]
    rfl
  have h1 : copyRange v.buf 0
      (freeSlots T i ++ some x :: freeSlots T (newCap - (i + 1))) 0 i =
      (liveSlots (xs.take i) ++ [some x]) ++
        freeSlots T (newCap - (i + 1)) := by
    rw [hbuf]
    rw [copyRange_live xs _ i 0 0 _ (by omega)
      (by simp [length_freeSlots] <;> omega)]
    rw [List.drop_left' (by simp [length_freeSlots])]
    simp [List.append_assoc]
  have h2 : copyRange v.buf i
      ((liveSlots (xs.take i) ++ [some x]) ++
        freeSlots T (newCap - (i + 1))) (i + 1) (v.size_ - i) =
      liveSlots (xs.take i ++ x :: xs.drop i) ++
        freeSlots T (newCap - (xs.length + 1)) := by
    have hAlen : (liveSlots (xs.take i) ++ [some x]).length = i + 1 := by
      simp [length_liveSlots]
      omega
    have e1 : ((liveSlots (xs.take i) ++ [some x]) ++
        freeSlots T (newCap - (i + 1))).take (i + 1) =
        liveSlots (xs.take i) ++ [some x] := List.take_left' hAlen
    have e2 : (xs.drop i).take (xs.length - i) = xs.drop i :=
      List.take_of_length_le (by simp)
    have e3 : ((liveSlots (xs.take i) ++ [some x]) ++
        freeSlots T (newCap - (i + 1))).drop (i + 1 + (xs.length - i)) =
        freeSlots T (newCap - (xs.length + 1)) := by
      rw [show i + 1 + (xs.length - i) = (liveSlots (xs.take i) ++
        [some x]).length + (xs.length - i) from by rw [hAlen]]
      rw [List.drop_append]
      rw [freeSlots, List.drop_replicate]
      rw [show newCap - (i + 1) - (xs.length - i) = newCap - (xs.length + 1)
        from by omega]
      rfl
    rw [hbuf, hsz]
    rw [copyRange_live xs _ (xs.length - i) i (i + 1) _ (by omega)
      (by simp [length_liveSlots, length_freeSlots] <;> omega)]
    rw [e1, e2, e3, liveSlots_append]
    simp [liveSlots, List.append_assoc]
  rw [heq, htmp, h1, h2]
  exact isRep_of_eq _ (newCap - (xs.length + 1)) _ rfl rfl
    (by simp [hsz]; omega)

theorem rep_emplace_mid {T : Type} {v : Vector T} {xs : List T}
    {i : Nat} (x junk : T) (hroom : v.size_ ≠ v.capacity)
    (hi : i < xs.length) (h : IsRep v xs) :
    IsRep (v.emplace i x junk)
      (xs.take i ++ x :: ((xs.drop i).take (xs.length - 1 - i) ++ [junk])) := by
  obtain ⟨hsz, hle, hbuf⟩ := h
  have hcap : xs.length < v.capacity := by omega
  have h0 : v.size_ ≠ 0 := by omega
  have heq : v.emplace i x junk = Vector.mk
      ⟨writeSlot
        (shiftRightOne (writeSlot v.buf v.size_ (some junk)) i
          (v.size_ - 1 - i)) i (some x)⟩ (v.size_ + 1) := by
    rw [Vector.emplace, if_neg hroom, if_pos h0]
  have hb1 : writeSlot v.buf v.size_ (some junk) =
      liveSlots xs ++ some junk :: freeSlots T (v.capacity - xs.length - 1) := by
    rw [writeSlot, hbuf, hsz]
    rw [set_liveFree_at_size xs _ _ (by omega)]
  have hb1len : (liveSlots xs ++ some junk ::
      freeSlots T (v.capacity - xs.length - 1)).length = v.capacity := by
    simp [length_liveSlots, length_freeSlots]
    omega
  have hb2 : shiftRightOne (writeSlot v.buf v.size_ (some junk)) i
      (v.size_ - 1 - i) =
      liveSlots (xs.take (i + 1)) ++
        liveSlots ((xs.drop i).take (xs.length - 1 - i)) ++
          some junk :: freeSlots T (v.capacity - xs.length - 1) := by
    rw [hb1, hsz]
    rw [shiftRightOne_eq i (xs.length - 1 - i) _ (by rw [hb1len]; omega)]
    rw [List.take_append_of_le_length (by rw [length_liveSlots]; omega)]
    rw [← liveSlots_take]
    rw [List.drop_append_of_le_length (by rw [length_liveSlots]; omega)]
    rw [← liveSlots_drop]
    rw [List.take_append_of_le_length (by rw [length_liveSlots]; simp; omega)]
    rw [← liveSlots_take]
    rw [show i + (xs.length - 1 - i) + 1 = xs.length from by omega]
    rw [List.drop_left' (by rw [length_liveSlots])]
  have hb3 : writeSlot
      (liveSlots (xs.take (i + 1)) ++
        liveSlots ((xs.drop i).take (xs.length - 1 - i)) ++
          some junk :: freeSlots T (v.capacity - xs.length - 1)) i (some x) =
      liveSlots (xs.take i ++ x ::
          ((xs.drop i).take (xs.length - 1 - i) ++ [junk])) ++
        freeSlots T (v.capacity - xs.length - 1) := by
    have hget : i < xs.length := hi
    have hsplit : liveSlots (xs.take (i + 1)) =
        liveSlots (xs.take i) ++ [some (xs.get ⟨i, hget⟩)] := by
      rw [List.take_succ, List.getElem?_eq_getElem hget]
      rw [liveSlots_append]
      rfl
    rw [writeSlot, List.append_assoc]
    rw [List.set_append, if_pos (by rw [length_liveSlots]; simp <;> omega)]
    rw [hsplit]
    rw [List.set_append, if_neg (by rw [length_liveSlots]; simp <;> omega)]
    rw [show i - (liveSlots (xs.take i)).length = 0 from by
      rw [length_liveSlots]; simp <;> omega]
    rw [List.set_cons_zero]
    simp [liveSlots, List.append_assoc]
  rw [heq, hb2, hb3]
  refine isRep_of_eq _ (v.capacity - xs.length - 1) _ rfl ?_ ?_
  · rw [show v.capacity - xs.length - 1 =
      v.capacity - (xs.take i ++ x :: ((xs.drop i).take (xs.length - 1 - i)
        ++ [junk])).length from by simp; omega]
  · rw [hsz]; simp; omega

theorem rep_emplace_atEnd {T : Type} {v : Vector T} {xs : List T}
    (x junk : T) (hroom : v.size_ ≠ v.capacity) (h : IsRep v xs) :
    IsRep (v.emplace xs.length x junk) (xs ++ [x]) := by
  obtain ⟨hsz, hle, hbuf⟩ := h
  have hcap : xs.length < v.capacity := by omega
  by_cases h0 : v.size_ = 0
  · have hnil : xs = [] := by
      cases xs with
      | nil => rfl
      | cons a l => rw [hsz] at h0; simp at h0
    subst hnil
    have heq : v.emplace 0 x junk = Vector.mk
        ⟨writeSlot v.buf 0 (some x)⟩ 1 := by
      rw [Vector.emplace, if_neg hroom, if_neg (by omega)]
    have hb : writeSlot v.buf 0 (some x) =
        liveSlots [x] ++ freeSlots T (v.capacity - 1) := by
      rw [writeSlot, hbuf]
      simp only [liveSlots, List.map_nil, List.nil_append, List.length_nil,
        Nat.sub_zero, List.map_cons]
      obtain ⟨m, hm⟩ : ∃ m, v.capacity = m + 1 := ⟨v.capacity - 1, by omega⟩
      rw [hm, freeSlots_succ, List.set_cons_zero]
      simp
    exact isRep_of_eq _ (v.capacity - 1) _ heq hb rfl
  · have heq : v.emplace xs.length x junk = Vector.mk
        ⟨writeSlot
          (shiftRightOne (writeSlot v.buf v.size_ (some junk)) xs.length
            (v.size_ - 1 - xs.length)) xs.length (some x)⟩ (v.size_ + 1) := by
      rw [Vector.emplace, if_neg hroom, if_pos h0]
    have hb1 : writeSlot v.buf v.size_ (some junk) =
        liveSlots xs ++ some junk ::
          freeSlots T (v.capacity - xs.length - 1) := by
      rw [writeSlot, hbuf, hsz]
      rw [set_liveFree_at_size xs _ _ (by omega)]
    have hcnt : v.size_ - 1 - xs.length = 0 := by omega
    have hb3 : writeSlot
        (liveSlots xs ++ some junk ::
          freeSlots T (v.capacity - xs.length - 1)) xs.length (some x) =
        liveSlots (xs ++ [x]) ++ freeSlots T (v.capacity - xs.length - 1) := by
      rw [writeSlot]
      rw [List.set_append, if_neg (by rw [length_liveSlots]; omega)]
      rw [length_liveSlots, Nat.sub_self, List.set_cons_zero]
      simp [liveSlots]
    rw [heq, hb1, hcnt]
    rw [show shiftRightOne (liveSlots xs ++ some junk ::
      freeSlots T (v.capacity - xs.length - 1)) xs.length 0 =
      liveSlots xs ++ some junk ::
        freeSlots T (v.capacity - xs.length - 1) from rfl]
    rw [hb3]
    refine isRep_of_eq _ (v.capacity - xs.length - 1) _ rfl ?_ ?_
    · rw [show v.capacity - xs.length - 1 =
        v.capacity - (xs ++ [x]).length from by simp; omega]
    · rw [hsz]; simp

theorem readSlot_free {T : Type} (xs : List T) (k i : Nat)
    (hi : xs.length ≤ i) :
    readSlot (liveSlots xs ++ freeSlots T k) i = none := by
  rw [readSlot, List.getD_eq_getElem?_getD]
  rw [List.getElem?_append_right (by rw [length_liveSlots]; exact hi)]
  rw [freeSlots, List.getElem?_replicate]
  by_cases hlt : i - (liveSlots xs).length < k
  · rw [if_pos hlt]; rfl
  · rw [if_neg hlt]; rfl

theorem freeSlots_drop (T : Type) (k j : Nat) :
    (freeSlots T k).drop j = freeSlots T (k - j) := by
  simp [freeSlots, List.drop_replicate]

theorem rep_copyAssign {T : Type} {dst rhs : Vector T} {xs ys : List T}
    (hd : IsRep dst xs) (hr : IsRep rhs ys) :
    IsRep (dst.copyAssign rhs) ys := by
  obtain ⟨hdsz, hdle, hdbuf⟩ := hd
  obtain ⟨hrsz, hrle, hrbuf⟩ := hr
  by_cases h1 : dst.capacity < rhs.size_
  · rw [Vector.copyAssign, if_pos h1]
    exact (rep_copyCtor ⟨hrsz, hrle, hrbuf⟩).1
  · have hylen : ys.length ≤ dst.capacity := by omega
    by_cases h2 : rhs.size_ < dst.size_
    · have hyx : ys.length < xs.length := by omega
      have heq : dst.copyAssign rhs = Vector.mk
          ⟨destroyRange (copyRange rhs.buf 0 dst.buf 0 rhs.size_)
            rhs.size_ (dst.size_ - rhs.size_)⟩ rhs.size_ := by
        rw [Vector.copyAssign, if_neg h1, if_pos h2]
      have hc1 : copyRange rhs.buf 0 dst.buf 0 rhs.size_ =
          (liveSlots ys ++ liveSlots (xs.drop ys.length)) ++
            freeSlots T (dst.capacity - xs.length) := by
        rw [hrbuf, hrsz, hdbuf]
        rw [copyRange_live ys _ ys.length 0 0 _ (by omega)
          (by simp [length_liveSlots, length_freeSlots] <;> omega)]
        simp only [List.take_zero, List.drop_zero, List.take_length,
          List.nil_append, Nat.zero_add]
        rw [drop_liveFree _ _ _ (by omega : ys.length ≤ xs.length)]
        simp [List.append_assoc]
      have e1 : ((liveSlots ys ++ liveSlots (xs.drop ys.length)) ++
          freeSlots T (dst.capacity - xs.length)).take ys.length =
          liveSlots ys := by
        rw [List.take_append_of_le_length
          (by simp [length_liveSlots] <;> omega)]
        rw [List.take_append_of_le_length (by simp [length_liveSlots])]
        rw [← liveSlots_take, List.take_length]
      have e2 : ((liveSlots ys ++ liveSlots (xs.drop ys.length)) ++
          freeSlots T (dst.capacity - xs.length)).drop
            (ys.length + (xs.length - ys.length)) =
          freeSlots T (dst.capacity - xs.length) := by
        rw [show ys.length + (xs.length - ys.length) =
          (liveSlots ys ++ liveSlots (xs.drop ys.length)).length + 0 from by
            simp [length_liveSlots] <;> omega]
        rw [List.drop_append, List.drop_zero]
      have hb : destroyRange (copyRange rhs.buf 0 dst.buf 0 rhs.size_)
          rhs.size_ (dst.size_ - rhs.size_) =
          liveSlots ys ++ freeSlots T (dst.capacity - ys.length) := by
        rw [hc1, hrsz, hdsz]
        rw [destroyRange_eq (xs.length - ys.length) ys.length _
          (by simp [length_liveSlots, length_freeSlots] <;> omega)]
        rw [e1, e2, List.append_assoc, freeSlots_append]
        rw [show xs.length - ys.length + (dst.capacity - xs.length) =
          dst.capacity - ys.length from by omega]
      exact isRep_of_eq _ (dst.capacity - ys.length) _ heq hb hrsz
    · have hxy : xs.length ≤ ys.length := by omega
      have heq : dst.copyAssign rhs = Vector.mk
          ⟨copyRange rhs.buf dst.size_ (copyRange rhs.buf 0 dst.buf 0
            dst.size_) dst.size_ (rhs.size_ - dst.size_)⟩ rhs.size_ := by
        rw [Vector.copyAssign, if_neg h1, if_neg h2]
      have e0 : (liveSlots xs ++
          freeSlots T (dst.capacity - xs.length)).drop xs.length =
          freeSlots T (dst.capacity - xs.length) := by
        have h3 := drop_liveFree_all xs (dst.capacity - xs.length) 0
        rw [Nat.add_zero, Nat.sub_zero] at h3
        exact h3
      have hc1 : copyRange rhs.buf 0 dst.buf 0 dst.size_ =
          liveSlots (ys.take xs.length) ++
            freeSlots T (dst.capacity - xs.length) := by
        rw [hrbuf, hdbuf, hdsz]
        rw [copyRange_live ys _ xs.length 0 0 _ (by omega)
          (by simp [length_liveSlots, length_freeSlots] <;> omega)]
        simp only [List.take_zero, List.drop_zero, List.nil_append,
          Nat.zero_add]
        rw [e0]
      have e1 : (liveSlots (ys.take xs.length) ++
          freeSlots T (dst.capacity - xs.length)).take xs.length =
          liveSlots (ys.take xs.length) :=
        List.take_left' (by simp [length_liveSlots, List.length_take]; omega)
      have e2 : (ys.drop xs.length).take (ys.length - xs.length) =
          ys.drop xs.length :=
        List.take_of_length_le (by simp)
      have e3 : (liveSlots (ys.take xs.length) ++
          freeSlots T (dst.capacity - xs.length)).drop
            (xs.length + (ys.length - xs.length)) =
          freeSlots T (dst.capacity - ys.length) := by
        rw [show xs.length + (ys.length - xs.length) =
          (liveSlots (ys.take xs.length)).length + (ys.length - xs.length)
          from by simp [length_liveSlots, List.length_take]; omega]
        rw [List.drop_append, freeSlots_drop]
        rw [show dst.capacity - xs.length - (ys.length - xs.length) =
          dst.capacity - ys.length from by omega]
      have hb : copyRange rhs.buf dst.size_ (copyRange rhs.buf 0 dst.buf 0
          dst.size_) dst.size_ (rhs.size_ - dst.size_) =
          liveSlots ys ++ freeSlots T (dst.capacity - ys.length) := by
        rw [hc1, hrbuf, hrsz, hdsz]
        rw [copyRange_live ys _ (ys.length - xs.length) xs.length xs.length _
          (by omega)
          (by simp [length_liveSlots, length_freeSlots, List.length_take]
            <;> omega)]
        rw [e1, e2, e3]
        rw [← liveSlots_append, List.take_append_drop]
      exact isRep_of_eq _ (dst.capacity - ys.length) _ heq hb hrsz

theorem rep_moveCtor {T : Type} {v : Vector T} {xs : List T}
    (h : IsRep v xs) :
    IsRep (v.moveCtor).fst xs ∧ (v.moveCtor).snd = Vector.empty T :=
  ⟨h, rfl⟩

theorem rep_swap {T : Type} {a b : Vector T} {xs ys : List T}
    (ha : IsRep a xs) (hb : IsRep b ys) :
    IsRep (a.swap b).fst ys ∧ IsRep (a.swap b).snd xs :=
  ⟨hb, ha⟩

theorem rep_moveAssign {T : Type} {dst rhs : Vector T} {xs ys : List T}
    (hd : IsRep dst xs) (hr : IsRep rhs ys) :
    IsRep (dst.moveAssign rhs).fst ys ∧
      IsRep (dst.moveAssign rhs).snd xs := by
  by_cases h1 : dst.capacity < rhs.size_
  · rw [Vector.moveAssign, if_pos h1]
    exact ⟨hr, (rep_reserve rhs.size_ hd).1⟩
  · rw [Vector.moveAssign, if_neg h1]
    exact ⟨hr, hd⟩

/-! ### Success-path reachable states and the size/capacity invariant -/

/-- States reachable from a default-constructed `Vector` by the public
operations WHEN EVERY ELEMENT CONSTRUCTION SUCCEEDS: append
(`PushBack`/`EmplaceBack`), `PopBack`, `Reserve`, `Resize`, `Erase` (at a
dereferenceable position), `Emplace`/`Insert` (at a position in
`[begin, end]`), copy construction, copy assignment, move construction,
move assignment and `Swap` (each side of the pair of states the binary
operations produce).

This is strictly SMALLER than the program's reachable set: it omits the
states `Emplace` reaches when a relocation move fails and the failure is
swallowed (modelled by `Vector.emplaceGrowMove`) — on those states the
liveness invariant proved by `reachable_isRep` is false. -/
inductive Reachable (T : Type) : Vector T → Prop where
  | base : Reachable T (Vector.empty T)
  | push (v : Vector T) (x : T) : Reachable T v →
      Reachable T (v.emplaceBack x)
  | pop (v : Vector T) : Reachable T v → Reachable T v.popBack
  | res (v : Vector T) (n : Nat) : Reachable T v →
      Reachable T (v.reserve n)
  | rsz (v : Vector T) (n : Nat) (d : T) : Reachable T v →
      Reachable T (v.resize n d)
  | ers (v : Vector T) (i : Nat) : Reachable T v → i < v.size_ →
      Reachable T (v.erase i)
  | emp (v : Vector T) (i : Nat) (x junk : T) : Reachable T v →
      i ≤ v.size_ → Reachable T (v.emplace i x junk)
  | cpy (v : Vector T) : Reachable T v → Reachable T v.copyCtor
  | cpyAsgn (a b : Vector T) : Reachable T a → Reachable T b →
      Reachable T (a.copyAssign b)
  | mvCtorFst (v : Vector T) : Reachable T v →
      Reachable T v.moveCtor.fst
  | mvCtorSnd (v : Vector T) : Reachable T v →
      Reachable T v.moveCtor.snd
  | mvAsgnFst (a b : Vector T) : Reachable T a → Reachable T b →
      Reachable T (a.moveAssign b).fst
  | mvAsgnSnd (a b : Vector T) : Reachable T a → Reachable T b →
      Reachable T (a.moveAssign b).snd
  | swapFst (a b : Vector T) : Reachable T a → Reachable T b →
      Reachable T (a.swap b).fst
  | swapSnd (a b : Vector T) : Reachable T a → Reachable T b →
      Reachable T (a.swap b).snd

theorem reachable_isRep {T : Type} {v : Vector T} (h : Reachable T v) :
    ∃ xs : List T, IsRep v xs := by
  induction h with
  | base => exact ⟨[], rep_empty T⟩
  | push v x hv ih =>
      obtain ⟨xs, hx⟩ := ih
      exact ⟨xs ++ [x], rep_emplaceBack x hx⟩
  | pop v hv ih =>
      obtain ⟨xs, hx⟩ := ih
      exact ⟨xs.dropLast, (rep_popBack hx).1⟩
  | res v n hv ih =>
      obtain ⟨xs, hx⟩ := ih
      exact ⟨xs, (rep_reserve n hx).1⟩
  | rsz v n d hv ih =>
      obtain ⟨xs, hx⟩ := ih
      exact ⟨_, (rep_resize n d hx).1⟩
  | ers v i hv hi ih =>
      obtain ⟨xs, hx⟩ := ih
      have hlen : i < xs.length := by rw [← hx.1]; exact hi
      exact ⟨_, (rep_erase hlen hx).1⟩
  | emp v i x junk hv hi ih =>
      obtain ⟨xs, hx⟩ := ih
      have hle2 : i ≤ xs.length := by rw [← hx.1]; exact hi
      by_cases hfull : v.size_ = v.capacity
      · exact ⟨_, rep_emplace_grow x junk hfull hle2 hx⟩
      · by_cases hlt : i < xs.length
        · exact ⟨_, rep_emplace_mid x junk hfull hlt hx⟩
        · have hieq : i = xs.length := by omega
          subst hieq
          exact ⟨_, rep_emplace_atEnd x junk hfull hx⟩
  | cpy v hv ih =>
      obtain ⟨xs, hx⟩ := ih
      exact ⟨xs, (rep_copyCtor hx).1⟩
  | cpyAsgn a b ha hb iha ihb =>
      obtain ⟨xs, hx⟩ := iha
      obtain ⟨ys, hy⟩ := ihb
      exact ⟨ys, rep_copyAssign hx hy⟩
  | mvCtorFst v hv ih =>
      obtain ⟨xs, hx⟩ := ih
      exact ⟨xs, (rep_moveCtor hx).1⟩
  | mvCtorSnd v hv ih =>
      exact ⟨[], rep_empty T⟩
  | mvAsgnFst a b ha hb iha ihb =>
      obtain ⟨xs, hx⟩ := iha
      obtain ⟨ys, hy⟩ := ihb
      exact ⟨ys, (rep_moveAssign hx hy).1⟩
  | mvAsgnSnd a b ha hb iha ihb =>
      obtain ⟨xs, hx⟩ := iha
      obtain ⟨ys, hy⟩ := ihb
      exact ⟨xs, (rep_moveAssign hx hy).2⟩
  | swapFst a b ha hb iha ihb =>
      obtain ⟨xs, hx⟩ := iha
      obtain ⟨ys, hy⟩ := ihb
      exact ⟨ys, (rep_swap hx hy).1⟩
  | swapSnd a b ha hb iha ihb =>
      obtain ⟨xs, hx⟩ := iha
      obtain ⟨ys, hy⟩ := ihb
      exact ⟨xs, (rep_swap hx hy).2⟩

theorem isRep_size_le {T : Type} {v : Vector T} {xs : List T}
    (h : IsRep v xs) : v.size_ ≤ v.capacity := by
  obtain ⟨hsz, hle, _⟩ := h
  omega

theorem isRep_live {T : Type} {v : Vector T} {xs : List T}
    (h : IsRep v xs) : ∀ i, i < v.size_ → (readSlot v.buf i).isSome := by
  obtain ⟨hsz, hle, hbuf⟩ := h
  intro i hi
  rw [hbuf, readSlot_live xs _ i (by omega)]
  rfl

theorem isRep_free {T : Type} {v : Vector T} {xs : List T}
    (h : IsRep v xs) : ∀ i, v.size_ ≤ i → readSlot v.buf i = none := by
  obtain ⟨hsz, hle, hbuf⟩ := h
  intro i hi
  rw [hbuf, readSlot_free xs _ i (by omega)]

/-! ### `PushBack` / `Insert` forwarding, and the returned reference -/

/-- `Vector::PushBack(value)` (both overloads): forwards to `EmplaceBack`. -/
def Vector.pushBack {T : Type} (v : Vector T) (x : T) : Vector T :=
  v.emplaceBack x

/-- `Vector::Insert(pos, value)` (both overloads): forwards to `Emplace`. -/
def Vector.insert {T : Type} (v : Vector T) (index : Nat) (x junk : T) :
    Vector T :=
  v.emplace index x junk

/-- Appending a list of values one by one with `EmplaceBack`. -/
def pushAll {T : Type} (v : Vector T) (ys : List T) : Vector T :=
  ys.foldl Vector.emplaceBack v

/-! ### The move-vs-copy relocation selection predicates

The source selects the relocation strategy from compile-time type traits
of `T`; a `TypeTraits` value records the three traits consulted. -/

/-- The three type traits of `T` the source consults when choosing how to
relocate elements into new storage. -/
structure TypeTraits where
  nothrowMoveConstructible : Bool
  copyConstructible : Bool
  nothrowCopyConstructible : Bool

/-- A trait assignment a real C++ type can have: a nothrow copy
constructor is in particular a copy constructor. -/
def TypeTraits.Valid (tr : TypeTraits) : Prop :=
  tr.nothrowCopyConstructible = true → tr.copyConstructible = true

/-- `Vector::Reserve`, line 210: relocates by move construction iff
`std::is_nothrow_move_constructible_v<T> || !std::is_copy_constructible_v<T>`. -/
def reserveMovesElements (tr : TypeTraits) : Bool :=
  tr.nothrowMoveConstructible || !tr.copyConstructible

/-- `Vector::EmplaceBack`, line 234: relocates by move construction iff
`std::is_nothrow_move_constructible_v<T> || !std::is_nothrow_copy_constructible_v<T>`. -/
def emplaceBackMovesElements (tr : TypeTraits) : Bool :=
  tr.nothrowMoveConstructible || !tr.nothrowCopyConstructible

/-- `Vector::Emplace`, line 257: same condition as `EmplaceBack`. -/
def emplaceMovesElements (tr : TypeTraits) : Bool :=
  tr.nothrowMoveConstructible || !tr.nothrowCopyConstructible

/-- The selection rule the specification claims governs all three
operations: move iff T's move construction cannot fail or T is not
copy-constructible at all. -/
def claimedSelectionRule (tr : TypeTraits) : Bool :=
  tr.nothrowMoveConstructible || !tr.copyConstructible

/-! ### Failure-instrumented relocation (`Vector::Emplace` grow path,
move branch) -/

/-- `std::uninitialized_move_n(src + srcOff, n, dst + dstOff)` when the
element constructor can fail: `fails i` says constructing from source
slot `i` fails.  On failure the algorithm destroys the elements it had
constructed in the destination and the error propagates (`.error k` with
`k` the failing source index; source slots `[srcOff, k)` are left
moved-from). -/
def moveRangeF {T : Type} (fails : Nat → Bool) (src : List (Option T))
    (srcOff : Nat) (dst : List (Option T)) (dstOff n : Nat) :
    Except Nat (List (Option T)) :=
  match n with
  | 0 => .ok dst
  | m + 1 =>
      if fails srcOff then .error srcOff
      else moveRangeF fails src (srcOff + 1)
        (writeSlot dst dstOff (readSlot src srcOff)) (dstOff + 1) m

/-- Source slots `[0, k)` hold moved-from objects: live, but with the
unspecified values `mf 0, ..., mf (k-1)`. -/
def markMovedFrom {T : Type} (buf : List (Option T)) (k : Nat)
    (mf : Nat → T) : List (Option T) :=
  match k with
  | 0 => buf
  | m + 1 => writeSlot (markMovedFrom buf m mf) m (some (mf m))

/-- The observable outcome of a call: the container state, and whether a
failure propagated to the caller. -/
structure EmplaceOutcome (T : Type) where
  vec : Vector T
  raised : Bool

/-- `Vector::Emplace` grow path (lines 253-283), move branch — the branch
taken when `emplaceMovesElements` holds, i.e. whenever T's copy
construction is not nothrow, even if T's move construction can fail.
`index = pos - begin()`; `fails i` says move construction from source
slot `i` fails; `mf` gives the unspecified values moved-from sources
hold.

Transliteration: allocate the new block and construct the new element at
`index`; `std::uninitialized_move_n(data_, index, tmp)` — not guarded by
any try/catch, so a failure there propagates (the new element at `index`
is never destroyed, and the already moved-from sources keep their
moved-from values); then the guarded
`std::uninitialized_move_n(begin() + index, size_ - index, tmp + index + 1)`
whose catch handler runs `DestroyN(tmp, index)` and does NOT re-raise, so
execution falls through to `std::destroy_n(data_, size_); size_++;
data_ = std::move(tmp);` in both the success and the failure case. -/
def Vector.emplaceGrowMove {T : Type} (v : Vector T) (index : Nat) (x : T)
    (fails : Nat → Bool) (mf : Nat → T) : EmplaceOutcome T :=
  let tmp := writeSlot
    (List.replicate (if v.size_ = 0 then 1 else v.size_ * 2) none)
    index (some x)
  match moveRangeF fails v.buf 0 tmp 0 index with
  | .error k => { vec := ⟨⟨markMovedFrom v.buf k mf⟩, v.size_⟩, raised := true }
  | .ok tmp1 =>
      match moveRangeF fails v.buf index tmp1 (index + 1)
          (v.size_ - index) with
      | .error _ =>
          { vec := ⟨⟨destroyRange tmp1 0 index⟩, v.size_ + 1⟩,
            raised := false }
      | .ok tmp2 => { vec := ⟨⟨tmp2⟩, v.size_ + 1⟩, raised := false }

/-! ### Sample concrete states for witnesses -/

/-- A concrete well-formed vector: elements `[7, 8]`, capacity 3. -/
def sampleVec : Vector Nat := ⟨⟨[some 7, some 8, none]⟩, 2⟩

theorem sampleVec_isRep : IsRep sampleVec [7, 8] := by
  refine ⟨rfl, by decide, ?_⟩
  rfl

/-! ### The claims -/

/-- C7: evaluation of the invariant at a failing state.  The claim says
every state reachable from a default-constructed vector by public
operations has `0 ≤ size_ ≤ capacity` with slots `[0, size_)` live and
slots `[size_, capacity)` uninitialized.  But a state that violates the
liveness part is reachable: two appends from empty produce `[10, 20]` at
full capacity 2 (first conjunct), and an `Emplace` at index 1 on a
throwing-move `T` whose suffix relocation fails RETURNS NORMALLY
(`raised = false`, the C1 slip: the catch handler does not re-raise) in a
state with `size_ = 3` where slot 0 — inside the live region `[0, 3)` —
holds no live object (`readSlot = none`). -/
theorem C7_live_slot_invariant_violated :
    ((Vector.empty Nat).emplaceBack 10).emplaceBack 20 =
        (⟨⟨[some 10, some 20]⟩, 2⟩ : Vector Nat) ∧
      (Vector.emplaceGrowMove (⟨⟨[some 10, some 20]⟩, 2⟩ : Vector Nat) 1 99
        (fun i => decide (i = 1)) (fun _ => 0)).raised = false ∧
      0 < (Vector.emplaceGrowMove (⟨⟨[some 10, some 20]⟩, 2⟩ : Vector Nat)
        1 99 (fun i => decide (i = 1)) (fun _ => 0)).vec.size_ ∧
      readSlot (Vector.emplaceGrowMove
        (⟨⟨[some 10, some 20]⟩, 2⟩ : Vector Nat) 1 99
        (fun i => decide (i = 1)) (fun _ => 0)).vec.buf 0 = none :=
  ⟨rfl, rfl, by decide, rfl⟩

/-- C5: appending values one by one (`PushBack` forwards to
`EmplaceBack`) appends them in order after the original contents; each
append increments `size_` by one and returns a reference to the new last
element (which holds the appended value). -/
theorem C5_append_correct {T : Type} (v : Vector T) (xs ys : List T)
    (x : T) (h : IsRep v xs) :
    IsRep (pushAll v ys) (xs ++ ys) ∧
      (v.emplaceBack x).backRef = some x ∧
      (v.emplaceBack x).size_ = v.size_ + 1 ∧
      v.pushBack x = v.emplaceBack x := by
  have main : ∀ (zs : List T) (w : Vector T) (ws : List T), IsRep w ws →
      IsRep (pushAll w zs) (ws ++ zs) := by
    intro zs
    induction zs with
    | nil =>
        intro w ws hw
        simpa [pushAll] using hw
    | cons z t ih =>
        intro w ws hw
        have h3 := ih (w.emplaceBack z) (ws ++ [z]) (rep_emplaceBack z hw)
        simpa [pushAll, List.append_assoc] using h3
  have hrep := rep_emplaceBack x h
  obtain ⟨hsz2, hle2, hbuf2⟩ := hrep
  have hlen : xs.length < (xs ++ [x]).length := by simp
  refine ⟨main ys v xs h, ?_, ?_, rfl⟩
  · rw [Vector.backRef, hbuf2, hsz2,
      show (xs ++ [x]).length - 1 = xs.length from by simp]
    rw [readSlot_live _ _ _ hlen]
    rw [List.get_eq_getElem]
    exact congrArg some (List.getElem_concat_length xs x xs.length rfl hlen)
  · rw [hsz2, h.1]
    simp

/-- Witness for C5: appending `[1, 2]` to the vector `[7, 8]`, and one
`EmplaceBack 5`. -/
theorem C5_append_correct_witness :
    IsRep (pushAll sampleVec [1, 2]) ([7, 8] ++ [1, 2]) ∧
      (sampleVec.emplaceBack 5).backRef = some 5 ∧
      (sampleVec.emplaceBack 5).size_ = sampleVec.size_ + 1 ∧
      sampleVec.pushBack 5 = sampleVec.emplaceBack 5 :=
  C5_append_correct sampleVec [7, 8] [1, 2] 5 sampleVec_isRep

/-- C8: `Reserve(n)` is a no-op when `n ≤ capacity`, otherwise moves to
storage of exactly `n` slots; in both cases the size and the element
sequence are unchanged. -/
theorem C8_reserve_contract {T : Type} (v : Vector T) (xs : List T)
    (n : Nat) (h : IsRep v xs) :
    (n ≤ v.capacity → v.reserve n = v) ∧
      IsRep (v.reserve n) xs ∧
      (v.reserve n).size_ = v.size_ ∧
      (v.capacity < n → (v.reserve n).capacity = n) := by
  obtain ⟨h1, h2, h3⟩ := rep_reserve n h
  exact ⟨fun hle => reserve_of_le hle, h1, h3, fun hlt => by rw [h2]; omega⟩

/-- Witness for C8 at the vector `[7, 8]` (capacity 3) with `n = 5`. -/
theorem C8_reserve_contract_witness :
    (5 ≤ sampleVec.capacity → sampleVec.reserve 5 = sampleVec) ∧
      IsRep (sampleVec.reserve 5) [7, 8] ∧
      (sampleVec.reserve 5).size_ = sampleVec.size_ ∧
      (sampleVec.capacity < 5 → (sampleVec.reserve 5).capacity = 5) :=
  C8_reserve_contract sampleVec [7, 8] 5 sampleVec_isRep

/-- C9: `PopBack` on an empty vector is a no-op (the model is a total
function, so no error is ever raised); on a non-empty vector it destroys
the last live element and decrements `size_` by one; capacity is
unchanged in both cases. -/
theorem C9_popBack_contract {T : Type} (v : Vector T) (xs : List T)
    (h : IsRep v xs) :
    (v.size_ = 0 → v.popBack = v) ∧
      IsRep v.popBack xs.dropLast ∧
      v.popBack.capacity = v.capacity ∧
      (v.size_ ≠ 0 → v.popBack.size_ = v.size_ - 1) := by
  obtain ⟨h1, h2⟩ := rep_popBack h
  exact ⟨fun h0 => by rw [Vector.popBack, if_pos h0], h1, h2,
    fun h0 => by rw [Vector.popBack, if_neg h0]⟩

/-- Witness for C9 at the vector `[7, 8]`. -/
theorem C9_popBack_contract_witness :
    (sampleVec.size_ = 0 → sampleVec.popBack = sampleVec) ∧
      IsRep sampleVec.popBack ([7, 8] : List Nat).dropLast ∧
      sampleVec.popBack.capacity = sampleVec.capacity ∧
      (sampleVec.size_ ≠ 0 → sampleVec.popBack.size_ = sampleVec.size_ - 1) :=
  C9_popBack_contract sampleVec [7, 8] sampleVec_isRep

/-- C10: copy construction produces a vector of the same size and the
same element sequence, with capacity equal to the source's size (not the
source's capacity). -/
theorem C10_copy_ctor_capacity {T : Type} (v : Vector T) (xs : List T)
    (h : IsRep v xs) :
    IsRep v.copyCtor xs ∧ v.copyCtor.size_ = v.size_ ∧
      v.copyCtor.capacity = v.size_ := by
  obtain ⟨h1, h2⟩ := rep_copyCtor h
  exact ⟨h1, rfl, h2.trans h.1.symm⟩

/-- Witness for C10 at the vector `[7, 8]` (capacity 3): the copy has
capacity 2. -/
theorem C10_copy_ctor_capacity_witness :
    IsRep sampleVec.copyCtor [7, 8] ∧
      sampleVec.copyCtor.size_ = sampleVec.size_ ∧
      sampleVec.copyCtor.capacity = sampleVec.size_ :=
  C10_copy_ctor_capacity sampleVec [7, 8] sampleVec_isRep

/-- C4 counterexample: `RawMemory` move assignment swaps the two handles,
so after move-assigning a capacity-2 block into a capacity-3 handle the
moved-from source holds the target's former capacity-3 block — it is not
left empty as the claim states. -/
theorem C4_raw_move_assign_source_not_empty :
    (RawMemory.moveAssign (RawMemory.alloc Nat 3)
        (RawMemory.alloc Nat 2)).snd.capacity = 3 ∧
      ¬ (RawMemory.moveAssign (RawMemory.alloc Nat 3)
        (RawMemory.alloc Nat 2)).snd.capacity = 0 := by
  exact ⟨rfl, by decide⟩

/-- C4 (amended): move construction (of `Vector` and of `RawMemory`)
transfers the storage and leaves the moved-from source empty (size 0,
capacity 0), the target holding the source's prior sequence; `RawMemory`
move assignment instead exchanges the two handles, so the moved-from
source is left with the target's previous block (capacity 0 only when the
target was empty). -/
theorem C4_move_transfer {T : Type} (v : Vector T) (xs : List T)
    (a b : RawMemory T) (h : IsRep v xs) :
    IsRep v.moveCtor.fst xs ∧
      v.moveCtor.snd.size_ = 0 ∧
      v.moveCtor.snd.capacity = 0 ∧
      (RawMemory.moveCtor a).fst.capacity = a.capacity ∧
      (RawMemory.moveCtor a).snd.capacity = 0 ∧
      (RawMemory.moveAssign a b).fst.capacity = b.capacity ∧
      (RawMemory.moveAssign a b).snd.capacity = a.capacity :=
  ⟨(rep_moveCtor h).1, rfl, rfl, rfl, rfl, rfl, rfl⟩

/-- Witness for C4 at the vector `[7, 8]` and two raw blocks. -/
theorem C4_move_transfer_witness :
    IsRep sampleVec.moveCtor.fst [7, 8] ∧
      sampleVec.moveCtor.snd.size_ = 0 ∧
      sampleVec.moveCtor.snd.capacity = 0 ∧
      (RawMemory.moveCtor (RawMemory.alloc Nat 2)).fst.capacity =
        (RawMemory.alloc Nat 2).capacity ∧
      (RawMemory.moveCtor (RawMemory.alloc Nat 2)).snd.capacity = 0 ∧
      (RawMemory.moveAssign (RawMemory.alloc Nat 2)
        (RawMemory.alloc Nat 5)).fst.capacity =
        (RawMemory.alloc Nat 5).capacity ∧
      (RawMemory.moveAssign (RawMemory.alloc Nat 2)
        (RawMemory.alloc Nat 5)).snd.capacity =
        (RawMemory.alloc Nat 2).capacity :=
  C4_move_transfer sampleVec [7, 8] (RawMemory.alloc Nat 2)
    (RawMemory.alloc Nat 5) sampleVec_isRep

/-- C2 counterexample: for a copy-constructible `T` whose copy and move
constructors can both fail, `EmplaceBack` and `Emplace` relocate by MOVE
(their condition tests `is_nothrow_copy_constructible`, line 234/257)
while the claimed rule — and `Reserve` (line 210, which tests
`is_copy_constructible`) — select copy.  So the three operations are not
governed by the same selection rule. -/
theorem C2_same_selection_rule_false :
    TypeTraits.Valid ⟨false, true, false⟩ ∧
      emplaceBackMovesElements ⟨false, true, false⟩ = true ∧
      emplaceMovesElements ⟨false, true, false⟩ = true ∧
      claimedSelectionRule ⟨false, true, false⟩ = false ∧
      reserveMovesElements ⟨false, true, false⟩ = false :=
  ⟨fun _ => rfl, rfl, rfl, rfl, rfl⟩

/-- C2 (amended): `Reserve` follows the claimed rule (move iff nothrow
move or not copy-constructible); `EmplaceBack` and `Emplace` share a
different rule (move iff nothrow move or copy construction is not
nothrow); the two rules agree exactly when `T` is not a copy-constructible
type with a throwing copy and a throwing move. -/
theorem C2_selection_rules (tr : TypeTraits) (hv : tr.Valid) :
    reserveMovesElements tr = claimedSelectionRule tr ∧
      emplaceMovesElements tr = emplaceBackMovesElements tr ∧
      (emplaceBackMovesElements tr = claimedSelectionRule tr ↔
        ¬(tr.copyConstructible = true ∧
          tr.nothrowCopyConstructible = false ∧
          tr.nothrowMoveConstructible = false)) := by
  rcases tr with ⟨m, c, nc⟩
  cases m <;> cases c <;> cases nc <;>
    first
      | decide
      | exact absurd (hv rfl) (by decide)

/-- Witness for C2 at a nothrow-copy, throwing-move trait assignment. -/
theorem C2_selection_rules_witness :
    reserveMovesElements ⟨false, true, true⟩ =
        claimedSelectionRule ⟨false, true, true⟩ ∧
      emplaceMovesElements ⟨false, true, true⟩ =
        emplaceBackMovesElements ⟨false, true, true⟩ ∧
      (emplaceBackMovesElements ⟨false, true, true⟩ =
          claimedSelectionRule ⟨false, true, true⟩ ↔
        ¬((⟨false, true, true⟩ : TypeTraits).copyConstructible = true ∧
          (⟨false, true, true⟩ : TypeTraits).nothrowCopyConstructible
            = false ∧
          (⟨false, true, true⟩ : TypeTraits).nothrowMoveConstructible
            = false)) :=
  C2_selection_rules ⟨false, true, true⟩ (fun _ => rfl)

/-- C1: evaluation of `Vector::Emplace`'s grow-path move branch at a
failing input.  Container `[10, 20]` at full capacity 2; `Emplace` at
index 1 of value 99; moving source element 1 into the new block fails.
The catch handler destroys the moved prefix but does not re-raise, so the
call reports no failure (`raised = false`), `size_` becomes 3, and the
adopted storage `[none, some 99, none, none]` has destroyed slots inside
the live region `[0, 3)` — the claimed strong guarantee (failure re-raised,
size 2 and sequence `[10, 20]` retained) is violated. -/
theorem C1_emplace_relocation_failure_swallowed :
    (Vector.emplaceGrowMove (⟨⟨[some 10, some 20]⟩, 2⟩ : Vector Nat) 1 99
        (fun i => decide (i = 1)) (fun _ => 0)).raised = false ∧
      (Vector.emplaceGrowMove (⟨⟨[some 10, some 20]⟩, 2⟩ : Vector Nat) 1 99
        (fun i => decide (i = 1)) (fun _ => 0)).vec.size_ = 3 ∧
      (Vector.emplaceGrowMove (⟨⟨[some 10, some 20]⟩, 2⟩ : Vector Nat) 1 99
        (fun i => decide (i = 1)) (fun _ => 0)).vec.buf =
        [none, some 99, none, none] :=
  ⟨rfl, rfl, rfl⟩

/-- C3: evaluation of the non-reallocating `Emplace` at a failing input.
Inserting 99 at index 0 of the vector `[10, 20]` with capacity 4 yields
the sequence `[99, 10, junk]` for every possible indeterminate value
`junk` of the slot constructed from the uninitialized `data_[size_]`
(line 287) — the previous last element 20 is lost, where the claim
requires `[99, 10, 20]`. -/
theorem C3_insert_no_realloc_loses_last (junk : Nat) :
    ((⟨⟨[some 10, some 20, none, none]⟩, 2⟩ : Vector Nat).insert 0 99
        junk).buf = [some 99, some 10, some junk, none] ∧
      ((⟨⟨[some 10, some 20, none, none]⟩, 2⟩ : Vector Nat).insert 0 99
        junk).size_ = 3 :=
  ⟨rfl, rfl⟩

/-- C6: evaluation of the insert/erase round trip at a failing input.
Inserting 99 at position 0 of `[10, 20]` (capacity 4, no reallocation)
and erasing position 0 yields `[10, junk]` for every indeterminate value
`junk` — not the original `[10, 20]` the claim requires (the last element
is lost by the insert, see C3). -/
theorem C6_insert_erase_roundtrip_fails (junk : Nat) :
    (((⟨⟨[some 10, some 20, none, none]⟩, 2⟩ : Vector Nat).insert 0 99
        junk).erase 0).buf = [some 10, some junk, none, none] ∧
      (((⟨⟨[some 10, some 20, none, none]⟩, 2⟩ : Vector Nat).insert 0 99
        junk).erase 0).size_ = 2 :=
  ⟨rfl, rfl⟩

end AdvVec
